import Mathlib

/-!
Shallow embedding of `looping_mechanism.py`: the document reader
(`extract_excel_data` with its helpers `get_number`, `get_etat_payment`,
`get_merged_cell_value`), the ledger upsert (`update_summary`), the full
rebuild (`generate_summary`) and the per-path debounce machinery of
`ExcelFileHandler`.  Strings are modelled as `List Char`; spreadsheet cell
values as an inductive `PyVal` covering the Python values the code meets
(`None`, strings, numbers); machine floats as `Rat`.
-/

namespace Looping

abbrev Chars := List Char

/-- A Python value held in a spreadsheet cell: `None`, a string, or a number.
Numbers are modelled as rationals. -/
inductive PyVal where
  | none
  | str (s : String)
  | num (x : Rat)
deriving DecidableEq

/-- Python truthiness of a cell value, as used by `ws['F2'].value or "N/A"`:
`None`, the empty string and the number `0` are falsy. -/
def pyTruthy : PyVal → Bool
  | PyVal.none => false
  | PyVal.str s => !(s == "")
  | PyVal.num x => !(x == 0)

/-- Decimal value of a digit list (helper for the `float(str)` model). -/
def digitsVal (l : Chars) : Nat :=
  l.foldl (fun a c => a * 10 + (c.toNat - 48)) 0

/-- Models Python `float(s)` on a string: optional sign, decimal digits with an
optional fractional part.  Returns `none` when the string cannot be converted
(which makes `float` raise `ValueError`). -/
def parseRatOfStr (s : String) : Option Rat :=
  let cs := s.data
  let sign : Bool := match cs with | '-' :: _ => true | _ => false
  let body : Chars := match cs with | '-' :: r => r | '+' :: r => r | r => r
  let ip := body.takeWhile (fun c => c != '.')
  let rest := body.dropWhile (fun c => c != '.')
  let mk : Rat → Option Rat := fun x => some (if sign then -x else x)
  match rest with
  | [] =>
      if ip.all Char.isDigit && !(ip.isEmpty) then mk (digitsVal ip) else Option.none
  | _ :: fp =>
      if ip.all Char.isDigit && fp.all Char.isDigit && !(ip.isEmpty && fp.isEmpty)
         && fp.all (fun c => c != '.') then
        mk ((digitsVal ip : Rat) + (digitsVal fp : Rat) / (10 : Rat) ^ fp.length)
      else Option.none

/-- Models Python `float(value)`: numbers convert to themselves, strings go
through the decimal parser, `None` raises (`none`). -/
def pyFloat : PyVal → Option Rat
  | PyVal.none => Option.none
  | PyVal.str s => parseRatOfStr s
  | PyVal.num x => some x

/-- A cell coordinate (1-based row and column, as in openpyxl). -/
structure Coord where
  row : Nat
  col : Nat
deriving DecidableEq

/-- A merged-cell range, with its bounding rows and columns
(`min_row`/`min_col` is the top-left anchor cell). -/
structure CellRange where
  min_row : Nat
  min_col : Nat
  max_row : Nat
  max_col : Nat
deriving DecidableEq

/-- Models `cell_coord in merged_range`: the coordinate lies inside the bounding box. -/
def inRange (c : Coord) (r : CellRange) : Bool :=
  decide (r.min_row ≤ c.row) && decide (c.row ≤ r.max_row) &&
  decide (r.min_col ≤ c.col) && decide (c.col ≤ r.max_col)

/-- A worksheet: a total assignment of values to (row, column) cells plus the
list of merged ranges (`ws.merged_cells.ranges`). -/
structure Worksheet where
  cellVal : Nat → Nat → PyVal
  merged : List CellRange

/-- Models `ws[coord].value`. -/
def Worksheet.get (ws : Worksheet) (c : Coord) : PyVal :=
  ws.cellVal c.row c.col

/-- Source `get_merged_cell_value(ws, cell_coord)`: scan `ws.merged_cells.ranges` in
order; at the first range containing the coordinate return the value of that
range's top-left cell `ws.cell(min_row, min_col)`; if no range contains it,
return the cell's own value. -/
def get_merged_cell_value (ws : Worksheet) (c : Coord) : PyVal :=
  match ws.merged.find? (fun r => inRange c r) with
  | some r => ws.cellVal r.min_row r.min_col
  | Option.none => ws.get c

-- The cell coordinates the extractor reads (column A=1, C=3, D=4, F=6, G=7,
-- H=8, J=10).
def A59 : Coord := ⟨59, 1⟩
def C59 : Coord := ⟨59, 3⟩
def D59 : Coord := ⟨59, 4⟩
def F2 : Coord := ⟨2, 6⟩
def G43 : Coord := ⟨43, 7⟩
def G45 : Coord := ⟨45, 7⟩
def G47 : Coord := ⟨47, 7⟩
def G49 : Coord := ⟨49, 7⟩
def C53 : Coord := ⟨53, 3⟩
def C57 : Coord := ⟨57, 3⟩
def H53 : Coord := ⟨53, 8⟩
def H55 : Coord := ⟨55, 8⟩
def H57 : Coord := ⟨57, 8⟩
def G59 : Coord := ⟨59, 7⟩
def H59 : Coord := ⟨59, 8⟩
def J59 : Coord := ⟨59, 10⟩

/-- Source `get_number(cell)`: `float(value) if value is not None else 0.0` inside a
`try/except` that returns `0.0` on any conversion failure. -/
def get_number (ws : Worksheet) (c : Coord) : Rat :=
  match ws.get c with
  | PyVal.none => 0
  | v =>
      match pyFloat v with
      | some x => x
      | Option.none => 0

/-- The emptiness test of the helper-cell loop: `value not in (None, "")`
fails exactly when the value equals `None` or equals `""`. -/
def markerIsEmpty (v : PyVal) : Bool :=
  match v with
  | PyVal.none => true
  | PyVal.str s => s == ""
  | PyVal.num _ => false

/-- The helper cells inspected left to right: `["C59", "G59", "J59"]`. -/
def helperCells : List Coord := [C59, G59, J59]

/-- The `helper_to_content` mapping: `C59 -> A59`, `G59 -> D59`, `J59 -> H59`. -/
def helper_to_content (h : Coord) : Coord :=
  if h = C59 then A59 else if h = G59 then D59 else H59

/-- Source `get_etat_payment()`: walk the helper cells left to right, remembering the
last (i.e. rightmost) non-empty one; read its paired content cell through
`get_merged_cell_value`; if every helper cell is empty return `"PAS ENCORE"`. -/
def get_etat_payment (ws : Worksheet) : PyVal :=
  match helperCells.foldl
      (fun acc h => if markerIsEmpty (ws.get h) then acc else some h)
      Option.none with
  | some h => get_merged_cell_value ws (helper_to_content h)
  | Option.none => PyVal.str "PAS ENCORE"

/-- Models `os.path.basename`: the part of the path after the last separator. -/
def basename (p : Chars) : Chars :=
  (p.reverse.takeWhile (fun c => c != '/')).reverse

/-- Models `os.path.basename(file_path).split('.')[0]`: the part of the base name
before the first dot (the whole base name when it has no dot). -/
def refOfPath (p : Chars) : Chars :=
  (basename p).takeWhile (fun c => c != '.')

/-- The record `extract_excel_data` builds for one document. -/
structure Record where
  reference : Chars
  lieu : PyVal
  charges_non_justifiees : Rat
  main_oeuvre : Rat
  total_bons : Rat
  total_fournisseur : Rat
  tva : Rat
  ttc : Rat
  ht : Rat
  benefice : Rat
  tva_10 : Rat
  etat_payment : PyVal
deriving DecidableEq

/-- The body of `extract_excel_data` once the workbook is open: the fixed
cell-mapping lookup. -/
def extractSheet (path : Chars) (ws : Worksheet) : Record :=
  { reference := refOfPath path
  , lieu := if pyTruthy (ws.get F2) then ws.get F2 else PyVal.str "N/A"
  , charges_non_justifiees := get_number ws G43
  , main_oeuvre := get_number ws G45
  , total_bons := get_number ws G47
  , total_fournisseur := get_number ws G49
  , tva := get_number ws C53
  , ttc := get_number ws C57
  , ht := get_number ws H53
  , benefice := get_number ws H55
  , tva_10 := get_number ws H57
  , etat_payment := get_etat_payment ws }

/-- Source `extract_excel_data(file_path)`: the whole body sits in a `try/except`
that returns `{}` (here `none`) when the workbook cannot be loaded; a document
whose workbook opens always yields a full record. -/
def extract_excel_data (path : Chars) (doc : Option Worksheet) : Option Record :=
  doc.map (extractSheet path)

/-- Decimal digits of a natural number (rendering helper). -/
def renderNat (n : Nat) : Chars := Nat.toDigits 10 n

/-- Decimal rendering of an integer. -/
def renderInt (i : Int) : Chars :=
  match i with
  | Int.ofNat n => renderNat n
  | Int.negSucc n => '-' :: renderNat (n + 1)

/-- Deterministic rendering of a rational number into the ledger line.  It
stands in for the decimal text Python's f-string produces for a float; no
claim depends on the digit format, only on the rendering being a function of
the value. -/
def renderRat (x : Rat) : Chars := renderInt x.num ++ '/' :: renderNat x.den

/-- f-string rendering of a cell value. -/
def pyStr : PyVal → Chars
  | PyVal.none => "None".data
  | PyVal.str s => s.data
  | PyVal.num x => renderRat x

/-- The f-string of `update_summary`/`generate_summary` minus its leading
`reference|`: the eleven remaining fields joined by `|`. -/
def renderFields (r : Record) : Chars :=
  pyStr r.lieu ++ '|' :: renderRat r.charges_non_justifiees
    ++ '|' :: renderRat r.main_oeuvre ++ '|' :: renderRat r.total_bons
    ++ '|' :: renderRat r.total_fournisseur ++ '|' :: renderRat r.tva
    ++ '|' :: renderRat r.ttc ++ '|' :: renderRat r.ht
    ++ '|' :: renderRat r.benefice ++ '|' :: renderRat r.tva_10
    ++ '|' :: pyStr r.etat_payment

/-- A ledger data line: the identifier, the delimiter, then the rest of the
line. -/
def renderLine (ref rest : Chars) : Chars := ref ++ '|' :: rest

/-- The whole `new_line` built from an extracted record. -/
def recordLine (r : Record) : Chars := renderLine r.reference (renderFields r)

/-- The fixed header line of `SUMMARYPRO.txt`. -/
def headerChars : Chars :=
  ("reference|lieu|TOTAL DES CHARGES NON JUSTIFIÉES|main_oeuvre|total_bons|"
    ++ "total_fournisseur|tva|ttc|ht|benefice|tva_10|etat_payment").data

/-- Models `line.startswith(data['reference'] + '|')`. -/
def lineMatches (ref line : Chars) : Bool := List.isPrefixOf (ref ++ ['|']) line

/-- The identifier of a ledger line: the text before the first delimiter. -/
def lineRef (l : Chars) : Chars := l.takeWhile (fun c => c != '|')

/-- The loop of `update_summary` over `lines[1:]`: every line starting with
`reference + '|'` is replaced by the new line, the rest are kept. -/
def upsertMap (ref newLine : Chars) (ls : List Chars) : List Chars :=
  ls.map (fun l => if lineMatches ref l then newLine else l)

/-- The `updated` flag of that loop: some line matched. -/
def anyMatch (ref : Chars) (ls : List Chars) : Bool :=
  ls.any (fun l => lineMatches ref l)

/-- Models `if not lines or not lines[0].startswith("reference"): lines.insert(0, header)`. -/
def ensureHeader (lines : List Chars) : List Chars :=
  match lines with
  | [] => [headerChars]
  | l :: ls =>
      if List.isPrefixOf ("reference".data) l then l :: ls else headerChars :: l :: ls

/-- The ledger-table part of `update_summary`: ensure the header, replace the
matching data lines in place, and append the new line at the end when nothing
matched. -/
def update_summary_lines (ref newLine : Chars) (lines : List Chars) : List Chars :=
  match ensureHeader lines with
  | [] => []
  | h :: ds =>
      h :: (if anyMatch ref ds then upsertMap ref newLine ds else ds ++ [newLine])

/-- Python-dict assignment `d[k] = v` on an insertion-ordered association
list: update in place when the key exists, append otherwise. -/
def dictSet (k : Chars) (v : Chars) : List (Chars × Chars) → List (Chars × Chars)
  | [] => [(k, v)]
  | (k', v') :: rest =>
      if k' = k then (k, v) :: rest else (k', v') :: dictSet k v rest

/-- The persisted state `update_summary` and `generate_summary` mutate: the
lines of `SUMMARYPRO.txt` and the path-to-digest dict of
`summary_hashes.json`. -/
structure LedgerState where
  summary : List Chars
  hashes : List (Chars × Chars)
deriving DecidableEq

/-- Source `update_summary(file_path)` after extraction: `none` (a falsy `data`)
returns without touching anything; otherwise the ledger lines are upserted and
the hash dict records the file's current digest. -/
def update_summary (extracted : Option (Chars × Chars)) (path hash : Chars)
    (st : LedgerState) : LedgerState :=
  match extracted with
  | Option.none => st
  | some (ref, rest) =>
      { summary := update_summary_lines ref (renderLine ref rest) st.summary
      , hashes := dictSet path hash st.hashes }

/-- Source `update_summary(file_path)` from the top: extract, bail out on failure,
then upsert. -/
def update_summaryFull (path : Chars) (doc : Option Worksheet) (hash : Chars)
    (st : LedgerState) : LedgerState :=
  update_summary ((extract_excel_data path doc).map
      (fun r => (r.reference, renderFields r))) path hash st

/-- One monitored `.xlsx` file: its path, its workbook (`none` when loading
fails) and the digest of its raw bytes. -/
structure XFile where
  path : Chars
  doc : Option Worksheet
  hash : Chars

/-- The loop body of `generate_summary`: a file whose extraction yields data
appends its line and records its digest; a failing file is skipped. -/
def generateStep (acc : List Chars × List (Chars × Chars)) (f : XFile) :
    List Chars × List (Chars × Chars) :=
  match extract_excel_data f.path f.doc with
  | some r => (acc.1 ++ [recordLine r], dictSet f.path f.hash acc.2)
  | Option.none => acc

/-- Source `generate_summary()`: rebuild the ledger from the current file list —
header first, then one line per successfully extracted file, and a fresh hash
dict. -/
def generate_summary (files : List XFile) : LedgerState :=
  let acc := files.foldl generateStep ([], [])
  { summary := headerChars :: acc.1, hashes := acc.2 }

/-- The data line produced for one file during the rebuild, when its
extraction succeeds. -/
def extractLine (f : XFile) : Option Chars :=
  (extract_excel_data f.path f.doc).map recordLine

/-- The state of the per-path debounce machinery of `ExcelFileHandler`:
`pending` is the entry of `modification_timers` for this path (at most one
timer handle, with timer handles numbered in creation order), `cancelled` the
handles whose `cancel()` ran before they fired, `updates` the
extraction-and-upsert operations actually performed, each recorded with the
file content read when the timer fired. -/
structure CoalescerState where
  pending : Option Nat
  cancelled : List Nat
  nextId : Nat
  updates : List Chars
deriving DecidableEq

/-- An observable event for one path: a modification notification, or the
firing of timer handle `id` reading file content `c`. -/
inductive WatchEvent where
  | modify
  | fire (id : Nat) (content : Chars)

/-- Source `on_modified`: cancel the pending timer for the path when there is one,
then arm a fresh timer and store its handle in `modification_timers`. -/
def on_modified (st : CoalescerState) : CoalescerState :=
  { pending := some st.nextId
  , cancelled :=
      match st.pending with
      | some i => i :: st.cancelled
      | Option.none => st.cancelled
  , nextId := st.nextId + 1
  , updates := st.updates }

/-- A timer firing: a cancelled handle never runs; the live pending handle
runs `handle_modified`, which performs the update with the content read at
that moment and removes the handle from `modification_timers`. -/
def handle_fire (st : CoalescerState) (id : Nat) (content : Chars) :
    CoalescerState :=
  if st.cancelled.contains id then st
  else if st.pending = some id then
    { st with updates := st.updates ++ [content], pending := Option.none }
  else st

/-- One step of the per-path event system. -/
def coalescerStep (st : CoalescerState) : WatchEvent → CoalescerState
  | WatchEvent.modify => on_modified st
  | WatchEvent.fire id c => handle_fire st id c

/-- The idle state: no pending timer, nothing cancelled, nothing updated. -/
def idleState : CoalescerState := ⟨Option.none, [], 0, []⟩

/-- Persistence model of the ledger writes: both `update_summary` and
`generate_summary` open `SUMMARY_FILE` itself in `'w'` mode (truncating it)
and write the lines sequentially, so an interruption after `k` lines leaves
exactly the first `k` lines of the new table on disk. -/
def directWriteStates (newLines : List Chars) : List (List Chars) :=
  (List.range (newLines.length + 1)).map (fun k => newLines.take k)

/-- Modelled from the spec's words in section 6 (“document identifier =
filename without extension”): the base name with its final `.extension`
removed, i.e. `os.path.splitext` semantics.  Comparator for the refinement
claim about identifiers; the source derivation is `refOfPath`. -/
def stripExtSpec (name : Chars) : Chars :=
  if '.' ∈ name then ((name.reverse.dropWhile (fun c => c != '.')).drop 1).reverse
  else name

/-- A worksheet whose every cell is empty and with no merged ranges — the
simplest concrete workbook. -/
def emptySheet : Worksheet := ⟨fun _ _ => PyVal.none, []⟩

/-- A concrete worksheet with payment markers set at the first and third
helper positions (C59 and J59), the middle one (G59) empty, and the third
pair's content cell H59 holding `PAID`. -/
def sheet13 : Worksheet :=
  ⟨fun r c =>
    if r = 59 ∧ c = 3 then PyVal.str "x"
    else if r = 59 ∧ c = 10 then PyVal.str "y"
    else if r = 59 ∧ c = 8 then PyVal.str "PAID"
    else PyVal.none, []⟩

/-- A concrete worksheet with one merged region D59:E59 whose top-left cell
holds `TL`. -/
def mergedSheet : Worksheet :=
  ⟨fun r c => if r = 59 ∧ c = 4 then PyVal.str "TL" else PyVal.none,
   [⟨59, 4, 59, 5⟩]⟩

/-! ### Lemmas about line matching -/

/-- A rendered line always matches its own identifier. -/
lemma lineMatches_self (ref rest : Chars) :
    lineMatches ref (renderLine ref rest) = true := by
  simp [lineMatches, renderLine, List.isPrefixOf_iff_prefix]

/-- On delimiter-free identifiers, the `startswith(ref + '|')` test of
`update_summary` is exactly identifier equality. -/
lemma lineMatches_renderLine_iff (ref ref' rest : Chars)
    (h : '|' ∉ ref) (h' : '|' ∉ ref') :
    (lineMatches ref (renderLine ref' rest) = true) ↔ ref = ref' := by
  induction ref generalizing ref' with
  | nil =>
    cases ref' with
    | nil => simp [lineMatches, renderLine, List.isPrefixOf]
    | cons c cs =>
      simp only [List.mem_cons, not_or] at h'
      simp [lineMatches, renderLine, List.isPrefixOf, h'.1]
  | cons a as ih =>
    simp only [List.mem_cons, not_or] at h
    cases ref' with
    | nil =>
      simp [lineMatches, renderLine, List.isPrefixOf]
      exact fun e => absurd e.symm h.1
    | cons c cs =>
      simp only [List.mem_cons, not_or] at h'
      by_cases hac : a = c
      · subst hac
        have := ih cs h.2 h'.2
        simpa [lineMatches, renderLine, List.isPrefixOf] using this
      · simp [lineMatches, renderLine, List.isPrefixOf, hac]

/-- The identifier parsed back from a rendered line. -/
lemma lineRef_renderLine (ref rest : Chars) (h : '|' ∉ ref) :
    lineRef (renderLine ref rest) = ref := by
  induction ref with
  | nil => simp [lineRef, renderLine]
  | cons a as ih =>
    simp only [List.mem_cons, not_or] at h
    simpa [lineRef, renderLine, List.takeWhile_cons, bne_iff_ne, Ne.symm h.1]
      using ih h.2

/-- The header line starts with `reference`, so `update_summary` keeps it. -/
lemma ensureHeader_header_cons (ds : List Chars) :
    ensureHeader (headerChars :: ds) = headerChars :: ds := by
  have : List.isPrefixOf ("reference".data) headerChars = true := by decide
  simp [ensureHeader, this]

/-- The replacement loop on a well-formed table rewrites exactly the lines
whose identifier equals the upserted one. -/
lemma upsertMap_renderLine (ref newLine : Chars) (recs : List (Chars × Chars))
    (hp : ∀ p ∈ recs, '|' ∉ p.1) (href : '|' ∉ ref) :
    upsertMap ref newLine (recs.map (fun p => renderLine p.1 p.2)) =
      recs.map (fun p => if p.1 = ref then newLine else renderLine p.1 p.2) := by
  unfold upsertMap
  rw [List.map_map]
  refine List.map_congr_left (fun p hmem => ?_)
  by_cases hq : p.1 = ref
  · subst hq
    simp [lineMatches_self]
  · have hne : ¬ (lineMatches ref (renderLine p.1 p.2) = true) := by
      rw [lineMatches_renderLine_iff ref p.1 p.2 href (hp p hmem)]
      exact fun e => hq e.symm
    simp only [Bool.not_eq_true] at hne
    simp [hne, hq]

/-- The `updated` flag on a well-formed table is exactly membership of the
upserted identifier. -/
lemma anyMatch_renderLine (ref : Chars) (recs : List (Chars × Chars))
    (hp : ∀ p ∈ recs, '|' ∉ p.1) (href : '|' ∉ ref) :
    (anyMatch ref (recs.map (fun p => renderLine p.1 p.2)) = true) ↔
      ref ∈ recs.map Prod.fst := by
  unfold anyMatch
  rw [List.any_eq_true]
  constructor
  · rintro ⟨l, hl, hmatch⟩
    rcases List.mem_map.mp hl with ⟨p, hpmem, rfl⟩
    have he := (lineMatches_renderLine_iff ref p.1 p.2 href (hp p hpmem)).mp hmatch
    rw [he]
    exact List.mem_map_of_mem Prod.fst hpmem
  · intro hmem
    rcases List.mem_map.mp hmem with ⟨p, hpmem, hfst⟩
    exact ⟨renderLine p.1 p.2, List.mem_map_of_mem _ hpmem,
      (lineMatches_renderLine_iff ref p.1 p.2 href (hp p hpmem)).mpr hfst.symm⟩

/-- Characterisation of one `update_summary` run on a well-formed ledger:
replace in place when the identifier exists, append otherwise; record the
digest. -/
lemma update_summary_eq (recs : List (Chars × Chars)) (ref rest path hash : Chars)
    (hs : List (Chars × Chars))
    (hp : ∀ p ∈ recs, '|' ∉ p.1) (href : '|' ∉ ref) :
    update_summary (some (ref, rest)) path hash
        ⟨headerChars :: recs.map (fun p => renderLine p.1 p.2), hs⟩ =
      ⟨headerChars ::
        (if ref ∈ recs.map Prod.fst then
          recs.map (fun p => if p.1 = ref then renderLine ref rest
            else renderLine p.1 p.2)
         else recs.map (fun p => renderLine p.1 p.2) ++ [renderLine ref rest]),
       dictSet path hash hs⟩ := by
  unfold update_summary update_summary_lines
  rw [ensureHeader_header_cons]
  by_cases hmem : ref ∈ recs.map Prod.fst
  · have hany : anyMatch ref (recs.map (fun p => renderLine p.1 p.2)) = true :=
      (anyMatch_renderLine ref recs hp href).mpr hmem
    simp [hany, hmem, upsertMap_renderLine ref (renderLine ref rest) recs hp href]
  · have hany : ¬ (anyMatch ref (recs.map (fun p => renderLine p.1 p.2)) = true) :=
      fun h => hmem ((anyMatch_renderLine ref recs hp href).mp h)
    simp only [Bool.not_eq_true] at hany
    simp [hany, hmem]

/-- C2: on a ledger with header and pairwise-distinct, delimiter-free
identifiers, `update_summary` replaces the line with the upserted record's
identifier in its original position when one exists and appends the new line
at the end otherwise; every other line is kept unchanged, and the hash dict
records the file's digest. -/
theorem update_summary_upsert (recs : List (Chars × Chars)) (ref rest path hash : Chars)
    (hs : List (Chars × Chars))
    (hp : ∀ p ∈ recs, '|' ∉ p.1) (href : '|' ∉ ref)
    (_hnd : (recs.map Prod.fst).Nodup) :
    update_summary (some (ref, rest)) path hash
        ⟨headerChars :: recs.map (fun p => renderLine p.1 p.2), hs⟩ =
      ⟨headerChars ::
        (if ref ∈ recs.map Prod.fst then
          recs.map (fun p => if p.1 = ref then renderLine ref rest
            else renderLine p.1 p.2)
         else recs.map (fun p => renderLine p.1 p.2) ++ [renderLine ref rest]),
       dictSet path hash hs⟩ :=
  update_summary_eq recs ref rest path hash hs hp href

/-- Witness for C2: upserting `A'` into the ledger `{A, B}` yields `{A', B}` —
the updated record keeps its position, `B` is untouched, nothing is appended. -/
theorem update_summary_upsert_witness :
    update_summary (some ("A".data, "9".data)) "p".data "h".data
        ⟨headerChars :: [renderLine "A".data "1".data, renderLine "B".data "2".data],
         []⟩ =
      ⟨headerChars :: [renderLine "A".data "9".data, renderLine "B".data "2".data],
       [("p".data, "h".data)]⟩ := by
  have h := update_summary_upsert [("A".data, "1".data), ("B".data, "2".data)]
    "A".data "9".data "p".data "h".data [] (by decide) (by decide) (by decide)
  simpa using h

/-! ### Idempotence of the incremental update -/

/-- Replacing matching lines twice is the same as once, because the new line
matches its own identifier. -/
lemma upsertMap_idem (ref newLine : Chars)
    (hself : lineMatches ref newLine = true) (ds : List Chars) :
    upsertMap ref newLine (upsertMap ref newLine ds) = upsertMap ref newLine ds := by
  unfold upsertMap
  rw [List.map_map]
  refine List.map_congr_left (fun l _ => ?_)
  by_cases h : lineMatches ref l = true
  · simp [h, hself]
  · simp only [Bool.not_eq_true] at h
    simp [h]

/-- After a successful replacement some line still matches. -/
lemma anyMatch_upsertMap (ref newLine : Chars)
    (hself : lineMatches ref newLine = true) (ds : List Chars)
    (h : anyMatch ref ds = true) :
    anyMatch ref (upsertMap ref newLine ds) = true := by
  rw [anyMatch, List.any_eq_true] at h ⊢
  rcases h with ⟨l, hl, hm⟩
  exact ⟨newLine, List.mem_map.mpr ⟨l, hl, by simp [hm]⟩, hself⟩

/-- When nothing matched, the replacement loop changed nothing. -/
lemma upsertMap_of_no_match (ref newLine : Chars) (ds : List Chars)
    (h : anyMatch ref ds = false) :
    upsertMap ref newLine ds = ds := by
  rw [anyMatch, List.any_eq_false] at h
  unfold upsertMap
  conv_rhs => rw [← List.map_id ds]
  refine List.map_congr_left (fun l hl => ?_)
  have := h l hl
  simp only [Bool.not_eq_true] at this
  simp [this]

/-- The function `ensureHeader` always returns a nonempty list whose head starts with
`reference`. -/
lemma ensureHeader_spec (lines : List Chars) :
    ∃ h ds, ensureHeader lines = h :: ds ∧
      List.isPrefixOf ("reference".data) h = true := by
  cases lines with
  | nil => exact ⟨headerChars, [], rfl, by decide⟩
  | cons l ls =>
    by_cases hl : List.isPrefixOf ("reference".data) l = true
    · exact ⟨l, ls, by simp [ensureHeader, hl], hl⟩
    · refine ⟨headerChars, l :: ls, ?_, by decide⟩
      simp only [Bool.not_eq_true] at hl
      simp [ensureHeader, hl]

/-- A list whose head starts with `reference` is left alone by `ensureHeader`. -/
lemma ensureHeader_of_header (h : Chars) (ds : List Chars)
    (hh : List.isPrefixOf ("reference".data) h = true) :
    ensureHeader (h :: ds) = h :: ds := by
  simp [ensureHeader, hh]

/-- The replacement loop distributes over appending. -/
lemma upsertMap_append (ref newLine : Chars) (ds es : List Chars) :
    upsertMap ref newLine (ds ++ es) =
      upsertMap ref newLine ds ++ upsertMap ref newLine es := by
  unfold upsertMap
  exact List.map_append _ _ _

/-- The ledger-table part of the update is idempotent on every input table. -/
lemma update_summary_lines_idem (ref newLine : Chars)
    (hself : lineMatches ref newLine = true) (lines : List Chars) :
    update_summary_lines ref newLine (update_summary_lines ref newLine lines) =
      update_summary_lines ref newLine lines := by
  obtain ⟨h, ds, he, hh⟩ := ensureHeader_spec lines
  have h1 : update_summary_lines ref newLine lines =
      h :: (if anyMatch ref ds then upsertMap ref newLine ds else ds ++ [newLine]) := by
    unfold update_summary_lines
    rw [he]
  rcases Bool.eq_false_or_eq_true (anyMatch ref ds) with ha | ha
  · rw [h1, if_pos ha]
    have ha2 := anyMatch_upsertMap ref newLine hself ds ha
    unfold update_summary_lines
    rw [ensureHeader_of_header h _ hh]
    show h :: (if anyMatch ref (upsertMap ref newLine ds) then
        upsertMap ref newLine (upsertMap ref newLine ds)
        else upsertMap ref newLine ds ++ [newLine]) =
      h :: upsertMap ref newLine ds
    rw [if_pos ha2, upsertMap_idem ref newLine hself ds]
  · rw [h1, if_neg (by simp [ha])]
    have ha2 : anyMatch ref (ds ++ [newLine]) = true := by
      unfold anyMatch
      rw [List.any_append]
      simp [hself]
    unfold update_summary_lines
    rw [ensureHeader_of_header h _ hh]
    show h :: (if anyMatch ref (ds ++ [newLine]) then
        upsertMap ref newLine (ds ++ [newLine]) else (ds ++ [newLine]) ++ [newLine]) =
      h :: (ds ++ [newLine])
    rw [if_pos ha2, upsertMap_append, upsertMap_of_no_match ref newLine ds ha]
    simp [upsertMap, hself]

/-- Python-dict assignment of the same key/value pair twice equals once. -/
lemma dictSet_idem (k v : Chars) (m : List (Chars × Chars)) :
    dictSet k v (dictSet k v m) = dictSet k v m := by
  induction m with
  | nil => simp [dictSet]
  | cons p rest ih =>
    obtain ⟨k', v'⟩ := p
    by_cases h : k' = k
    · subst h
      simp [dictSet]
    · simp [dictSet, h, ih]

/-- One full incremental update is idempotent on every ledger state. -/
lemma update_summary_idem_all (ref rest path hash : Chars) (st : LedgerState) :
    update_summary (some (ref, rest)) path hash
        (update_summary (some (ref, rest)) path hash st) =
      update_summary (some (ref, rest)) path hash st := by
  unfold update_summary
  simp only
  rw [update_summary_lines_idem ref (renderLine ref rest)
    (lineMatches_self ref rest) st.summary]
  rw [dictSet_idem]

/-- Generic pointwise `countP` congruence on pair lists. -/
lemma countP_congr_pairs (p q : Chars × Chars → Bool) (l : List (Chars × Chars))
    (h : ∀ a ∈ l, p a = q a) : l.countP p = l.countP q := by
  induction l with
  | nil => rfl
  | cons a as ih =>
    simp [List.countP_cons, h a (by simp), ih (fun b hb => h b (by simp [hb]))]

/-- On a duplicate-free list, the element `a` is counted exactly once. -/
lemma countP_eq_one_of_nodup (a : Chars) (l : List Chars) (hnd : l.Nodup)
    (hm : a ∈ l) : l.countP (fun x => x == a) = 1 := by
  induction l with
  | nil => cases hm
  | cons b bs ih =>
    rw [List.nodup_cons] at hnd
    rcases List.mem_cons.mp hm with hba | hm'
    · subst hba
      rw [List.countP_cons]
      have h0 : bs.countP (fun x => x == a) = 0 := by
        refine List.countP_eq_zero.mpr (fun x hx hxe => ?_)
        rw [beq_iff_eq] at hxe
        exact hnd.1 (hxe ▸ hx)
      simp [h0]
    · rw [List.countP_cons]
      have hba : ¬ ((b == a) = true) := by
        rw [beq_iff_eq]
        intro e
        exact hnd.1 (e ▸ hm')
      simp only [Bool.not_eq_true] at hba
      simp [hba, ih hnd.2 hm']

/-- C3 (amended to ledgers satisfying the no-duplicate-identifier invariant):
re-running `update_summary` with the same extracted data and digest is
idempotent — the second run (and any further repetition) reproduces the same
ledger and fingerprint index — and the resulting ledger holds exactly one
record for the document's identifier, whose line is byte-identical to the
rendered record. -/
theorem update_summary_idempotent (ref rest path hash : Chars)
    (recs hs : List (Chars × Chars))
    (hp : ∀ p ∈ recs, '|' ∉ p.1) (href : '|' ∉ ref)
    (hnd : (recs.map Prod.fst).Nodup) :
    (∀ st : LedgerState,
      update_summary (some (ref, rest)) path hash
          (update_summary (some (ref, rest)) path hash st) =
        update_summary (some (ref, rest)) path hash st) ∧
    (∀ n : Nat,
      (fun st => update_summary (some (ref, rest)) path hash st)^[n + 1]
          ⟨headerChars :: recs.map (fun p => renderLine p.1 p.2), hs⟩ =
        update_summary (some (ref, rest)) path hash
          ⟨headerChars :: recs.map (fun p => renderLine p.1 p.2), hs⟩) ∧
    ((update_summary (some (ref, rest)) path hash
        ⟨headerChars :: recs.map (fun p => renderLine p.1 p.2), hs⟩).summary.drop
        1).countP (fun l => lineMatches ref l) = 1 ∧
    renderLine ref rest ∈
      (update_summary (some (ref, rest)) path hash
        ⟨headerChars :: recs.map (fun p => renderLine p.1 p.2), hs⟩).summary.drop 1 := by
  refine ⟨fun st => update_summary_idem_all ref rest path hash st, ?_, ?_, ?_⟩
  · intro n
    induction n with
    | zero => rfl
    | succ n ih =>
      rw [Function.iterate_succ_apply', ih,
        update_summary_idem_all ref rest path hash]
  · rw [update_summary_eq recs ref rest path hash hs hp href]
    by_cases hmem : ref ∈ recs.map Prod.fst
    · simp only [hmem, if_true, List.drop_succ_cons, List.drop_zero]
      rw [List.countP_map]
      rw [countP_congr_pairs _ (fun p => p.1 == ref) recs ?_]
      · have h2 : recs.countP (fun p => p.1 == ref) =
            (recs.map Prod.fst).countP (fun x => x == ref) := by
          rw [List.countP_map]
          rfl
        rw [h2]
        exact countP_eq_one_of_nodup ref (recs.map Prod.fst) hnd hmem
      · intro p hpmem
        by_cases hq : p.1 = ref
        · simp [Function.comp, hq, lineMatches_self]
        · have hne : ¬ (lineMatches ref (renderLine p.1 p.2) = true) := by
            rw [lineMatches_renderLine_iff ref p.1 p.2 href (hp p hpmem)]
            exact fun e => hq e.symm
          simp only [Bool.not_eq_true] at hne
          simp [Function.comp, hq, hne]
    · simp only [hmem, if_false, List.drop_succ_cons, List.drop_zero]
      rw [List.countP_append]
      have hzero : (recs.map (fun p => renderLine p.1 p.2)).countP
          (fun l => lineMatches ref l) = 0 := by
        rw [List.countP_eq_zero]
        intro l hl
        rcases List.mem_map.mp hl with ⟨p, hpmem, rfl⟩
        rw [lineMatches_renderLine_iff ref p.1 p.2 href (hp p hpmem)]
        intro e
        exact hmem (e ▸ List.mem_map_of_mem Prod.fst hpmem)
      rw [hzero]
      simp [lineMatches_self]
  · rw [update_summary_eq recs ref rest path hash hs hp href]
    by_cases hmem : ref ∈ recs.map Prod.fst
    · simp only [hmem, if_true, List.drop_succ_cons, List.drop_zero]
      rcases List.mem_map.mp hmem with ⟨p, hpmem, hfst⟩
      exact List.mem_map.mpr ⟨p, hpmem, by simp [hfst]⟩
    · simp only [hmem, if_false, List.drop_succ_cons, List.drop_zero]
      exact List.mem_append_right _ (List.mem_singleton.mpr rfl)

/-- Witness for C3: on the ledger `{A, B}`, updating `A` twice equals updating
it once, and the result holds exactly one record for `A`. -/
theorem update_summary_idempotent_witness :
    update_summary (some ("A".data, "9".data)) "p".data "h".data
        (update_summary (some ("A".data, "9".data)) "p".data "h".data
          ⟨headerChars :: [("A".data, "1".data), ("B".data, "2".data)].map
            (fun p => renderLine p.1 p.2), []⟩) =
      update_summary (some ("A".data, "9".data)) "p".data "h".data
        ⟨headerChars :: [("A".data, "1".data), ("B".data, "2".data)].map
          (fun p => renderLine p.1 p.2), []⟩ ∧
    ((update_summary (some ("A".data, "9".data)) "p".data "h".data
        ⟨headerChars :: [("A".data, "1".data), ("B".data, "2".data)].map
          (fun p => renderLine p.1 p.2), []⟩).summary.drop 1).countP
      (fun l => lineMatches "A".data l) = 1 := by
  have h := update_summary_idempotent "A".data "9".data "p".data "h".data
    [("A".data, "1".data), ("B".data, "2".data)] [] (by decide) (by decide)
    (by decide)
  exact ⟨h.1 _, h.2.2.1⟩

/-- Counterexample to C3 as stated for arbitrary ledger states: on a ledger
that already holds two records for identifier `A`, one update leaves two
records for `A`, not exactly one. -/
theorem update_summary_dup_records :
    ¬ (((update_summary (some ("A".data, "9".data)) "p".data "h".data
        ⟨[headerChars, renderLine "A".data "1".data, renderLine "A".data "2".data],
         []⟩).summary.drop 1).countP (fun l => lineMatches "A".data l) = 1) := by
  decide

/-! ### The full rebuild -/

/-- The rebuild loop accumulates exactly one line per successfully extracted
file, in file order. -/
lemma generate_fold_summary (files : List XFile)
    (acc : List Chars × List (Chars × Chars)) :
    (files.foldl generateStep acc).1 = acc.1 ++ files.filterMap extractLine := by
  induction files generalizing acc with
  | nil => simp
  | cons f fs ih =>
    rw [List.foldl_cons, ih]
    unfold generateStep extractLine
    cases h : extract_excel_data f.path f.doc with
    | none => simp [h]
    | some r => simp [h]

/-- Pointwise `filterMap` congruence over the file list. -/
lemma filterMap_congr_xfiles (g h : XFile → Option Chars) (l : List XFile)
    (he : ∀ f ∈ l, g f = h f) : l.filterMap g = l.filterMap h := by
  induction l with
  | nil => rfl
  | cons f fs ih =>
    rw [List.filterMap_cons, List.filterMap_cons, he f (by simp),
      ih (fun x hx => he x (by simp [hx]))]

/-- C1 (amended: duplicate identifiers are excluded only when the
successfully extracted files have pairwise-distinct identifiers):
`generate_summary` rebuilds the ledger as the header followed by exactly one
line per file whose extraction succeeds, in scan order — so no line for a
deleted file (absent from the scan) or an extraction-failing file survives —
and the data-line identifiers are exactly the extracted references, without
duplicates when those are pairwise distinct. -/
theorem generate_summary_rebuild (files : List XFile)
    (hpf : ∀ ref ∈ files.filterMap
        (fun f => (extract_excel_data f.path f.doc).map Record.reference),
      '|' ∉ ref)
    (hnd : (files.filterMap
        (fun f => (extract_excel_data f.path f.doc).map Record.reference)).Nodup) :
    (generate_summary files).summary = headerChars :: files.filterMap extractLine ∧
    ((generate_summary files).summary.drop 1).map lineRef =
      files.filterMap
        (fun f => (extract_excel_data f.path f.doc).map Record.reference) ∧
    (((generate_summary files).summary.drop 1).map lineRef).Nodup := by
  have h1 : (generate_summary files).summary =
      headerChars :: files.filterMap extractLine := by
    unfold generate_summary
    simp only
    rw [generate_fold_summary files ([], [])]
    rfl
  have h2 : ((generate_summary files).summary.drop 1).map lineRef =
      files.filterMap
        (fun f => (extract_excel_data f.path f.doc).map Record.reference) := by
    rw [h1]
    simp only [List.drop_succ_cons, List.drop_zero]
    rw [List.map_filterMap]
    refine filterMap_congr_xfiles _ _ files (fun f hf => ?_)
    cases h : extract_excel_data f.path f.doc with
    | none => simp [extractLine, h]
    | some r =>
      have hrref : '|' ∉ r.reference :=
        hpf r.reference (List.mem_filterMap.mpr ⟨f, hf, by rw [h]; rfl⟩)
      simp [extractLine, h, recordLine,
        lineRef_renderLine r.reference _ hrref]
  exact ⟨h1, h2, h2 ▸ hnd⟩

/-- Witness for C1: rebuilding over two files with distinct identifiers `X`
and `Y` yields the header plus exactly their two lines, with duplicate-free
identifiers. -/
theorem generate_summary_rebuild_witness :
    (generate_summary [⟨"a/X.xlsx".data, some emptySheet, "h1".data⟩,
        ⟨"b/Y.xlsx".data, some emptySheet, "h2".data⟩]).summary =
      headerChars :: [⟨"a/X.xlsx".data, some emptySheet, "h1".data⟩,
        ⟨"b/Y.xlsx".data, some emptySheet, "h2".data⟩].filterMap extractLine ∧
    (((generate_summary [⟨"a/X.xlsx".data, some emptySheet, "h1".data⟩,
        ⟨"b/Y.xlsx".data, some emptySheet, "h2".data⟩]).summary.drop 1).map
        lineRef).Nodup := by
  have h := generate_summary_rebuild
    [⟨"a/X.xlsx".data, some emptySheet, "h1".data⟩,
      ⟨"b/Y.xlsx".data, some emptySheet, "h2".data⟩] (by decide) (by decide)
  exact ⟨h.1, h.2.2⟩

/-- Counterexample to C1 as stated: two distinct monitored files sharing the
base-name stem `X` produce two ledger lines with the same identifier, so the
rebuilt ledger can hold duplicate identifiers. -/
theorem generate_summary_dup_identifiers :
    ¬ ((((generate_summary [⟨"a/X.xlsx".data, some emptySheet, "h1".data⟩,
        ⟨"b/X.xlsx".data, some emptySheet, "h2".data⟩]).summary.drop 1).map
        lineRef).Nodup) := by
  decide

/-! ### The debounce machinery -/

/-- Closed form of the per-path state after `k` consecutive modification
notifications from idle: the one pending timer is the freshest handle, every
older handle has been cancelled, and no update has run. -/
lemma foldl_modify_closed (k : Nat) :
    (List.replicate k WatchEvent.modify).foldl coalescerStep idleState =
      ⟨if k = 0 then Option.none else some (k - 1),
        (List.range (k - 1)).reverse, k, []⟩ := by
  induction k with
  | zero => rfl
  | succ n ih =>
    rw [List.replicate_succ', List.foldl_append, ih]
    cases n with
    | zero => rfl
    | succ m =>
      show on_modified ⟨some m, (List.range m).reverse, m + 2 - 1, []⟩ =
        ⟨some (m + 1), (List.range (m + 1)).reverse, m + 2, []⟩
      unfold on_modified
      simp [List.range_succ]

/-- Stepping on a fire event is `handle_fire`. -/
lemma coalescerStep_fire (st : CoalescerState) (id : Nat) (c : Chars) :
    coalescerStep st (WatchEvent.fire id c) = handle_fire st id c := rfl

/-- A handle whose `cancel()` ran never executes. -/
lemma handle_fire_cancelled (st : CoalescerState) (id : Nat) (c : Chars)
    (h : st.cancelled.contains id = true) :
    handle_fire st id c = st := by
  unfold handle_fire
  rw [if_pos h]

/-- The live pending handle executes `handle_modified`: it performs the one
update with the content read at fire time and clears the pending slot. -/
lemma handle_fire_live (st : CoalescerState) (id : Nat) (c : Chars)
    (h : st.cancelled.contains id = false) (hp : st.pending = some id) :
    handle_fire st id c =
      { st with updates := st.updates ++ [c], pending := Option.none } := by
  unfold handle_fire
  rw [if_neg (fun hcontra => Bool.false_ne_true (h ▸ hcontra)), if_pos hp]

/-- C4: after `N ≥ 1` modification notifications for one path within the
delay window, exactly one timer handle is outstanding (the freshest), no
update has run yet, every older handle is cancelled, firing a cancelled
handle is a no-op (a cancelled handle never executes), and firing the live
handle performs exactly one extraction-and-upsert carrying the file content
read at that moment. -/
theorem debounce_collapse (N : Nat) (hN : 0 < N) (c : Chars) :
    ((List.replicate N WatchEvent.modify).foldl coalescerStep idleState).pending =
      some (N - 1) ∧
    ((List.replicate N WatchEvent.modify).foldl coalescerStep idleState).updates =
      [] ∧
    (∀ i, i < N - 1 →
      i ∈ ((List.replicate N WatchEvent.modify).foldl coalescerStep
        idleState).cancelled) ∧
    (∀ i ∈ ((List.replicate N WatchEvent.modify).foldl coalescerStep
        idleState).cancelled,
      coalescerStep ((List.replicate N WatchEvent.modify).foldl coalescerStep
        idleState) (WatchEvent.fire i c) =
        (List.replicate N WatchEvent.modify).foldl coalescerStep idleState) ∧
    (coalescerStep ((List.replicate N WatchEvent.modify).foldl coalescerStep
        idleState) (WatchEvent.fire (N - 1) c)).updates = [c] ∧
    (coalescerStep ((List.replicate N WatchEvent.modify).foldl coalescerStep
        idleState) (WatchEvent.fire (N - 1) c)).pending = Option.none := by
  have hne : ¬ (N = 0) := Nat.pos_iff_ne_zero.mp hN
  have hmem : (N - 1) ∉ (List.range (N - 1)).reverse := by
    rw [List.mem_reverse, List.mem_range]
    exact Nat.lt_irrefl _
  have hnc : ((List.range (N - 1)).reverse).contains (N - 1) = false :=
    Bool.eq_false_iff.mpr (fun h => hmem (List.mem_of_elem_eq_true h))
  rw [foldl_modify_closed N]
  simp only [hne, if_false]
  refine ⟨trivial, trivial, ?_, ?_, ?_, ?_⟩
  · intro i hi
    rw [List.mem_reverse, List.mem_range]
    exact hi
  · intro i hi
    have hc : ((List.range (N - 1)).reverse).contains i = true := by
      simpa [List.contains] using List.elem_eq_true_of_mem hi
    rw [coalescerStep_fire, handle_fire_cancelled _ _ _ hc]
  · rw [coalescerStep_fire, handle_fire_live _ _ _ hnc rfl]
    rfl
  · rw [coalescerStep_fire, handle_fire_live _ _ _ hnc rfl]

/-- Witness for C4 at `N = 3`: after three bursts the pending handle is `2`,
firing the cancelled handle `0` does nothing, and firing handle `2` performs
exactly the one update. -/
theorem debounce_collapse_witness :
    0 < 3 ∧
    ((List.replicate 3 WatchEvent.modify).foldl coalescerStep idleState).pending =
      some 2 ∧
    coalescerStep ((List.replicate 3 WatchEvent.modify).foldl coalescerStep
        idleState) (WatchEvent.fire 0 "v".data) =
      (List.replicate 3 WatchEvent.modify).foldl coalescerStep idleState ∧
    (coalescerStep ((List.replicate 3 WatchEvent.modify).foldl coalescerStep
        idleState) (WatchEvent.fire 2 "v".data)).updates = ["v".data] := by
  have h := debounce_collapse 3 (by decide) "v".data
  exact ⟨by decide, h.1, h.2.2.2.1 0 (h.2.2.1 0 (by decide)), h.2.2.2.2.1⟩

/-! ### Persistence, failure handling, and the document reader -/

/-- C5 is violated by the code: both writers open `SUMMARY_FILE` itself in
`'w'` mode and write the table sequentially, so an interruption mid-write can
leave a state — here just the header, after the old table was truncated —
that is neither the fully old nor the fully new table.  The claim's
temp-file-then-install scheme is absent from the source. -/
theorem direct_write_not_atomic :
    [headerChars] ∈ directWriteStates
      ((generate_summary
        [⟨"a/REF001.xlsx".data, some emptySheet, "h1".data⟩]).summary) ∧
    [headerChars] ≠ headerChars :: [renderLine "REF000".data "old".data] ∧
    [headerChars] ≠ (generate_summary
      [⟨"a/REF001.xlsx".data, some emptySheet, "h1".data⟩]).summary := by
  refine ⟨by decide, by decide, by decide⟩

/-- C6: when extraction fails — the `try/except` of `extract_excel_data`
returns no data — `update_summary` returns before touching anything: the
ledger lines and the fingerprint index are exactly as they were, so a prior
record for that identifier stays stale rather than being dropped. -/
theorem update_summary_no_mutation_on_failure (path hash : Chars)
    (doc : Option Worksheet) (st : LedgerState)
    (h : extract_excel_data path doc = Option.none) :
    update_summaryFull path doc hash st = st := by
  unfold update_summaryFull
  rw [h]
  rfl

/-- Witness for C6: an unopenable workbook leaves a one-record ledger state
untouched. -/
theorem update_summary_no_mutation_on_failure_witness :
    extract_excel_data "c/Z.xlsx".data Option.none = Option.none ∧
    update_summaryFull "c/Z.xlsx".data Option.none "h".data
        ⟨[headerChars, renderLine "A".data "1".data], []⟩ =
      ⟨[headerChars, renderLine "A".data "1".data], []⟩ :=
  ⟨rfl, update_summary_no_mutation_on_failure "c/Z.xlsx".data "h".data
    Option.none ⟨[headerChars, renderLine "A".data "1".data], []⟩ rfl⟩

/-- The helper-to-content pairs evaluate as in the source dict. -/
lemma helper_to_content_C59 : helper_to_content C59 = A59 := by decide

lemma helper_to_content_G59 : helper_to_content G59 = D59 := by decide

lemma helper_to_content_J59 : helper_to_content J59 = H59 := by decide

/-- C7: payment-status resolution — the rightmost non-empty marker among
C59, G59, J59 selects its paired content cell (C59→A59, G59→D59, J59→H59),
read through the merged-cell lookup; in particular, with markers set only at
the first and third positions the third pair H59 is read, and with all three
markers empty the sentinel `PAS ENCORE` results. -/
theorem get_etat_payment_rightmost (ws : Worksheet) :
    (get_etat_payment ws =
      (if markerIsEmpty (ws.get J59) = false then get_merged_cell_value ws H59
       else if markerIsEmpty (ws.get G59) = false then
         get_merged_cell_value ws D59
       else if markerIsEmpty (ws.get C59) = false then
         get_merged_cell_value ws A59
       else PyVal.str "PAS ENCORE")) ∧
    (markerIsEmpty (ws.get C59) = false → markerIsEmpty (ws.get G59) = true →
      markerIsEmpty (ws.get J59) = false →
      get_etat_payment ws = get_merged_cell_value ws H59) ∧
    (markerIsEmpty (ws.get C59) = true → markerIsEmpty (ws.get G59) = true →
      markerIsEmpty (ws.get J59) = true →
      get_etat_payment ws = PyVal.str "PAS ENCORE") := by
  have key : get_etat_payment ws =
      (if markerIsEmpty (ws.get J59) = false then get_merged_cell_value ws H59
       else if markerIsEmpty (ws.get G59) = false then
         get_merged_cell_value ws D59
       else if markerIsEmpty (ws.get C59) = false then
         get_merged_cell_value ws A59
       else PyVal.str "PAS ENCORE") := by
    unfold get_etat_payment helperCells
    cases hc : markerIsEmpty (ws.get C59) <;>
      cases hg : markerIsEmpty (ws.get G59) <;>
        cases hj : markerIsEmpty (ws.get J59) <;>
          simp [List.foldl, hc, hg, hj, helper_to_content_C59,
            helper_to_content_G59, helper_to_content_J59]
  refine ⟨key, fun hc hg hj => ?_, fun hc hg hj => ?_⟩
  · rw [key]
    simp [hc, hg, hj]
  · rw [key]
    simp [hc, hg, hj]

/-- Witness for C7: on the concrete sheet with markers at the first and third
positions only, the status is read from the third pair H59 and equals `PAID`. -/
theorem get_etat_payment_rightmost_witness :
    markerIsEmpty (sheet13.get C59) = false ∧
    markerIsEmpty (sheet13.get G59) = true ∧
    markerIsEmpty (sheet13.get J59) = false ∧
    get_etat_payment sheet13 = get_merged_cell_value sheet13 H59 ∧
    get_etat_payment sheet13 = PyVal.str "PAID" := by
  refine ⟨by decide, by decide, by decide, ?_, by decide⟩
  exact (get_etat_payment_rightmost sheet13).2.1 (by decide) (by decide)
    (by decide)

/-- C8: reading through `get_merged_cell_value` — a coordinate inside a
merged region (a workbook's merged regions never overlap, so the containing
region is unique) yields the value stored at that region's top-left anchor
cell; a coordinate in no merged region yields the cell's own value. -/
theorem get_merged_cell_value_spec (ws : Worksheet) (c : Coord) :
    (∀ r ∈ ws.merged, inRange c r = true →
      (∀ r' ∈ ws.merged, inRange c r' = true → r' = r) →
      get_merged_cell_value ws c = ws.cellVal r.min_row r.min_col) ∧
    ((∀ r ∈ ws.merged, inRange c r = false) →
      get_merged_cell_value ws c = ws.get c) := by
  constructor
  · intro r hr hcr huniq
    unfold get_merged_cell_value
    cases hf : ws.merged.find? (fun r => inRange c r) with
    | none =>
      exact absurd hcr ((List.find?_eq_none.mp hf) r hr)
    | some r0 =>
      have h1 : inRange c r0 = true := List.find?_some hf
      have h2 : r0 ∈ ws.merged := List.mem_of_find?_eq_some hf
      rw [huniq r0 h2 h1]
  · intro hnone
    unfold get_merged_cell_value
    cases hf : ws.merged.find? (fun r => inRange c r) with
    | none => rfl
    | some r0 =>
      have h1 : inRange c r0 = true := List.find?_some hf
      have h2 : r0 ∈ ws.merged := List.mem_of_find?_eq_some hf
      rw [hnone r0 h2] at h1
      cases h1

/-- Witness for C8: reading E59 inside the merged region D59:E59 returns the
top-left cell's value `TL`. -/
theorem get_merged_cell_value_spec_witness :
    (⟨59, 4, 59, 5⟩ : CellRange) ∈ mergedSheet.merged ∧
    inRange ⟨59, 5⟩ (⟨59, 4, 59, 5⟩ : CellRange) = true ∧
    get_merged_cell_value mergedSheet ⟨59, 5⟩ = PyVal.str "TL" := by
  refine ⟨by decide, by decide, ?_⟩
  have h := (get_merged_cell_value_spec mergedSheet ⟨59, 5⟩).1
    ⟨59, 4, 59, 5⟩ (by decide) (by decide) (by decide)
  rw [h]
  decide

/-- Applying `takeWhile (· != d)` to a list split at the first `d` keeps the part
before it. -/
lemma takeWhile_ne_append (a b : Chars) (d : Char) (ha : d ∉ a) :
    (a ++ d :: b).takeWhile (fun c => c != d) = a := by
  induction a with
  | nil => simp [List.takeWhile_cons]
  | cons x xs ih =>
    simp only [List.mem_cons, not_or] at ha
    have hx : (x != d) = true := by
      rw [bne_iff_ne]
      exact fun e => ha.1 e.symm
    simp [List.takeWhile_cons, hx, ih ha.2]

/-- Applying `dropWhile (· != d)` to a list split at the first `d` drops the part
before it. -/
lemma dropWhile_ne_append (a b : Chars) (d : Char) (ha : d ∉ a) :
    (a ++ d :: b).dropWhile (fun c => c != d) = d :: b := by
  induction a with
  | nil => simp [List.dropWhile_cons]
  | cons x xs ih =>
    simp only [List.mem_cons, not_or] at ha
    have hx : (x != d) = true := by
      rw [bne_iff_ne]
      exact fun e => ha.1 e.symm
    simp [List.dropWhile_cons, hx, ih ha.2]

/-- C9 (amended: the stored identifier is the part of the base name before
the FIRST dot): whenever the base name contains exactly one dot, the
identifier in the extracted record is the part before that dot, which then
coincides with the spec's “base name with the extension removed”. -/
theorem reference_first_dot (p a b : Chars) (ws : Worksheet)
    (hb : basename p = a ++ '.' :: b) (ha : '.' ∉ a) (hb2 : '.' ∉ b) :
    (extractSheet p ws).reference = a ∧
    refOfPath p = stripExtSpec (basename p) := by
  have h1 : refOfPath p = a := by
    unfold refOfPath
    rw [hb]
    exact takeWhile_ne_append a b '.' ha
  have h2 : stripExtSpec (basename p) = a := by
    unfold stripExtSpec
    rw [hb, if_pos (by simp)]
    have hrev : (a ++ '.' :: b).reverse = b.reverse ++ '.' :: a.reverse := by
      simp
    rw [hrev, dropWhile_ne_append b.reverse a.reverse '.'
      (fun hm => hb2 (List.mem_reverse.mp hm))]
    simp
  exact ⟨h1, h1.trans h2.symm⟩

/-- Witness for C9: `dir/invoice.xlsx` has exactly one dot in its base name
and its stored identifier is `invoice`. -/
theorem reference_first_dot_witness :
    basename ("dir/invoice.xlsx".data) = "invoice".data ++ '.' :: "xlsx".data ∧
    (extractSheet ("dir/invoice.xlsx".data) emptySheet).reference =
      "invoice".data ∧
    refOfPath ("dir/invoice.xlsx".data) =
      stripExtSpec (basename ("dir/invoice.xlsx".data)) := by
  have h := reference_first_dot ("dir/invoice.xlsx".data) ("invoice".data)
    ("xlsx".data) emptySheet (by decide) (by decide) (by decide)
  exact ⟨by decide, h.1, h.2⟩

/-- Counterexample to C9's general clause: for base name `a.b.xlsx` the code
stores identifier `a` (the part before the first dot), while the base name
with its extension removed is `a.b`. -/
theorem reference_multidot_mismatch :
    (extractSheet ("dir/a.b.xlsx".data) emptySheet).reference = "a".data ∧
    stripExtSpec (basename ("dir/a.b.xlsx".data)) = "a.b".data ∧
    ¬ ((extractSheet ("dir/a.b.xlsx".data) emptySheet).reference =
        stripExtSpec (basename ("dir/a.b.xlsx".data))) := by
  refine ⟨by decide, by decide, by decide⟩

/-- The reader `get_number` defaults to zero on an empty or unconvertible cell. -/
lemma get_number_default (ws : Worksheet) (c : Coord)
    (h : ws.get c = PyVal.none ∨ pyFloat (ws.get c) = Option.none) :
    get_number ws c = 0 := by
  unfold get_number
  cases hv : ws.get c with
  | none => rfl
  | str s =>
    rcases h with h | h
    · rw [hv] at h
      cases h
    · rw [hv] at h
      show (match pyFloat (PyVal.str s) with
        | some x => x
        | Option.none => (0 : Rat)) = (0 : Rat)
      rw [h]
  | num x =>
    rcases h with h | h
    · rw [hv] at h
      cases h
    · rw [hv] at h
      cases h

/-- C10: once the workbook opens, extraction is total over missing or
malformed cell contents: it always yields a record (the document is never
skipped), every numeric field read through `get_number` is `0.0` when its
cell is empty or its value cannot be converted to a number, and the location
field is the string `N/A` when cell F2 is empty. -/
theorem extract_total_defaults (path : Chars) (ws : Worksheet) :
    extract_excel_data path (some ws) = some (extractSheet path ws) ∧
    (ws.get F2 = PyVal.none → (extractSheet path ws).lieu = PyVal.str "N/A") ∧
    ((ws.get G43 = PyVal.none ∨ pyFloat (ws.get G43) = Option.none) →
      (extractSheet path ws).charges_non_justifiees = 0) ∧
    ((ws.get G45 = PyVal.none ∨ pyFloat (ws.get G45) = Option.none) →
      (extractSheet path ws).main_oeuvre = 0) ∧
    ((ws.get G47 = PyVal.none ∨ pyFloat (ws.get G47) = Option.none) →
      (extractSheet path ws).total_bons = 0) ∧
    ((ws.get G49 = PyVal.none ∨ pyFloat (ws.get G49) = Option.none) →
      (extractSheet path ws).total_fournisseur = 0) ∧
    ((ws.get C53 = PyVal.none ∨ pyFloat (ws.get C53) = Option.none) →
      (extractSheet path ws).tva = 0) ∧
    ((ws.get C57 = PyVal.none ∨ pyFloat (ws.get C57) = Option.none) →
      (extractSheet path ws).ttc = 0) ∧
    ((ws.get H53 = PyVal.none ∨ pyFloat (ws.get H53) = Option.none) →
      (extractSheet path ws).ht = 0) ∧
    ((ws.get H55 = PyVal.none ∨ pyFloat (ws.get H55) = Option.none) →
      (extractSheet path ws).benefice = 0) ∧
    ((ws.get H57 = PyVal.none ∨ pyFloat (ws.get H57) = Option.none) →
      (extractSheet path ws).tva_10 = 0) := by
  refine ⟨rfl, ?_, fun h => get_number_default ws G43 h,
    fun h => get_number_default ws G45 h, fun h => get_number_default ws G47 h,
    fun h => get_number_default ws G49 h, fun h => get_number_default ws C53 h,
    fun h => get_number_default ws C57 h, fun h => get_number_default ws H53 h,
    fun h => get_number_default ws H55 h, fun h => get_number_default ws H57 h⟩
  intro h
  show (if pyTruthy (ws.get F2) then ws.get F2 else PyVal.str "N/A") =
    PyVal.str "N/A"
  rw [h]
  rfl

/-- Witness for C10: on the all-empty worksheet every numeric field is zero,
the location is `N/A`, and the document is not skipped. -/
theorem extract_total_defaults_witness :
    extract_excel_data ("c/W.xlsx".data) (some emptySheet) =
      some (extractSheet ("c/W.xlsx".data) emptySheet) ∧
    (extractSheet ("c/W.xlsx".data) emptySheet).lieu = PyVal.str "N/A" ∧
    (extractSheet ("c/W.xlsx".data) emptySheet).charges_non_justifiees = 0 ∧
    (extractSheet ("c/W.xlsx".data) emptySheet).tva_10 = 0 := by
  have h := extract_total_defaults ("c/W.xlsx".data) emptySheet
  exact ⟨h.1, h.2.1 rfl, h.2.2.1 (Or.inl rfl),
    h.2.2.2.2.2.2.2.2.2.2 (Or.inl rfl)⟩

end Looping
